import Mathlib

/-!
Verification of the selection, ranking and evaluation logic of the
EDH Rankle browser game (`src/App.jsx`, `src/Daily.jsx`).

JavaScript numbers that carry ranks are modelled as `ℚ` (`Option ℚ` when a
value may be `null`/missing); machine floating point does not arise in the
claims checked here because every rank is produced by `Number(...)` on small
JSON integers and compared with `===`/`<`.  Strings are modelled as `String`
or, where character-level reasoning is needed, as `List Char`.
-/

/-! ### Pair sampler (`pickTwoDistinct`, App.jsx 128-134)

```js
function pickTwoDistinct(arr) {
  if (!arr || arr.length < 2) return null;
  const a = Math.floor(Math.random() * arr.length);
  let b = Math.floor(Math.random() * (arr.length - 1));
  if (b >= a) b += 1;
  return [arr[a], arr[b]];
}
```

The two underlying uniform draws `Math.floor(Math.random()*n)` and
`Math.floor(Math.random()*(n-1))` are passed in explicitly as `a` and `b0`;
`Math.floor(Math.random()*k)` always lands in `[0, k)`, which is the
hypothesis used by the theorems.  An out-of-range draw (impossible in the
source) is mapped to `none`. -/

/-- The shift applied to the second draw: `if (b >= a) b += 1`. -/
def shiftIdx (a b0 : Nat) : Nat := if a ≤ b0 then b0 + 1 else b0

def pickTwoDistinct {α : Type} [Inhabited α] (arr : List α) (a b0 : Nat) :
    Option (α × α) :=
  if arr.length < 2 then none
  else
    let b := shiftIdx a b0
    match arr.get? a, arr.get? b with
    | some x, some y => some (x, y)
    | _, _ => none

/-! ### Pairwise guess evaluator (`makeGuess`, App.jsx 232-255)

```js
const lRank = typeof leftMeta.rank === 'number' ? leftMeta.rank : Number.POSITIVE_INFINITY;
const rRank = typeof rightMeta.rank === 'number' ? rightMeta.rank : Number.POSITIVE_INFINITY;
let correct = null;
if (lRank === rRank) correct = 'tie';
else if (lRank < rRank) correct = 'left';
else correct = 'right';
if (correct === side) { setStreak(s => { const newStreak = s + 1;
    if (newStreak > highestStreak) setHighestStreak(newStreak); return newStreak; }); }
else if (correct === 'tie') { /* streak unchanged */ }
else { setLastStreak(streak); setStreak(0); }
```

A missing rank (`rank` not a number) is lifted to `+∞` before comparison;
`compareRanks` performs the same three-way comparison on `Option ℚ` with
`none` playing the role of `+∞` (in JS `∞ === ∞` holds, so two missing ranks
compare as a tie). -/

inductive GuessResult where
  | left
  | right
  | tie
deriving DecidableEq, Repr

inductive Side where
  | left
  | right
deriving DecidableEq, Repr

def Side.toResult : Side → GuessResult
  | .left => .left
  | .right => .right

/-- Three-way comparison of the two ranks after lifting missing ranks to
`+∞`: `none` stands for `Number.POSITIVE_INFINITY`. -/
def compareRanks : Option ℚ → Option ℚ → GuessResult
  | none, none => .tie
  | none, some _ => .right
  | some _, none => .left
  | some a, some b => if a = b then .tie else if a < b then .left else .right

/-- The streak state of the pairwise game: `streak`, `lastStreak`
(recorded pre-reset value, `null` initially) and `highestStreak`. -/
structure PairScore where
  streak : Nat
  lastStreak : Option Nat
  highestStreak : Nat
deriving DecidableEq, Repr

def makeGuess (side : Side) (lRank rRank : Option ℚ) (st : PairScore) :
    GuessResult × PairScore :=
  let correct := compareRanks lRank rRank
  let st' :=
    if correct = side.toResult then
      let newStreak := st.streak + 1
      { st with
        streak := newStreak
        highestStreak :=
          if st.highestStreak < newStreak then newStreak else st.highestStreak }
    else if correct = .tie then st
    else { st with lastStreak := some st.streak, streak := 0 }
  (correct, st')

/-! ### Daily seed (`getDailySeed`, Daily.jsx 10-17)

```js
function getDailySeed() {
  const now = new Date();
  const year = now.getUTCFullYear();
  const month = (now.getUTCMonth() + 1).toString().padStart(2, '0');
  const day = now.getUTCDate().toString().padStart(2, '0');
  return Number(`${year}${month}${day}`);
}
```

An instant is modelled as a UTC calendar date plus the time of day; the
`getUTC*` accessors read only the date part.  `Number` applied to the
concatenation of the year digits with the zero-padded two-digit month and
day equals `year * 10000 + month * 100 + day` by decimal place value
(month and day are both at most two digits). -/

structure UTCDate where
  year : Nat
  month : Nat
  day : Nat
deriving DecidableEq, Repr

/-- A moment in time: its UTC calendar date plus the time elapsed within
that day (which `getDailySeed` ignores). -/
structure Instant where
  date : UTCDate
  msOfDay : Nat
deriving DecidableEq, Repr

def getDailySeed (t : Instant) : Nat :=
  t.date.year * 10000 + t.date.month * 100 + t.date.day

/-- Gregorian leap-year rule, as implemented by the JS `Date` object. -/
def isLeapYear (y : Nat) : Bool :=
  (y % 4 == 0 && y % 100 != 0) || y % 400 == 0

def daysInMonth (y m : Nat) : Nat :=
  if m = 2 then (if isLeapYear y then 29 else 28)
  else if m = 4 ∨ m = 6 ∨ m = 9 ∨ m = 11 then 30
  else 31

/-- The calendar date following `d` (the date the JS `Date` object reports
one day after `d`). -/
def nextDay (d : UTCDate) : UTCDate :=
  if d.day < daysInMonth d.year d.month then { d with day := d.day + 1 }
  else if d.month < 12 then { year := d.year, month := d.month + 1, day := 1 }
  else { year := d.year + 1, month := 1, day := 1 }

/-- The dates the JS `Date` accessors can actually produce. -/
def ValidDate (d : UTCDate) : Prop :=
  1 ≤ d.month ∧ d.month ≤ 12 ∧ 1 ≤ d.day ∧ d.day ≤ daysInMonth d.year d.month

/-! ### Daily selection (`pickValidRankedCommanders`, Daily.jsx 29-50)

```js
function seededRandom(seed) { let x = Math.sin(seed) * 10000; return x - Math.floor(x); }
async function pickValidRankedCommanders(n = 7, maxAttempts = 50) {
  const arr = [...getFilteredCommanders()];
  const result = [];
  let attempts = 0;
  const seedBase = getDailySeed();
  while (result.length < n && arr.length && attempts < maxAttempts) {
    const idx = Math.floor(seededRandom(seedBase + attempts) * arr.length);
    const card = arr[idx];
    arr.splice(idx, 1);
    const rank = await fetchEdhrecCommanderRank(card.name);
    if (typeof rank === 'number' && rank > 0) { result.push({ ...card, rank }); }
    attempts++;
  }
  return result;
}
```

The sine-based hash `seededRandom` is a fixed pure function of its seed
(floating point, so it is abstracted here as a parameter `rnd : Nat → ℚ`
whose values lie in `[0, 1)`); the rank service is abstracted as a fixed
mapping `rankOf` from card names to optional ranks.  The `while` loop is
embedded with fuel `maxAttempts - attempts`, which decreases by one every
iteration exactly as `attempts` increases.  An out-of-range index (only
possible if `rnd` leaves `[0, 1)`, which `frac` never does) stops the loop
as the JS code would crash there. -/

/-- A card of the daily game: its Scryfall `id`, its `name`, and the
`rank` attached when the card is pushed into the result list
(`none` before that). -/
structure DCard where
  id : List Char
  name : String
  rank : Option ℚ
deriving DecidableEq, Repr

/-- `Math.floor(r * len)` for the seeded random value `r`. -/
def seededIdx (r : ℚ) (len : Nat) : Nat := (⌊r * (len : ℚ)⌋).toNat

/-- `arr.splice(idx, 1)`: remove the element at `idx`. -/
def spliceAt {α : Type} (l : List α) (i : Nat) : List α :=
  l.take i ++ l.drop (i + 1)

def pickLoop (rnd : Nat → ℚ) (rankOf : String → Option ℚ) (n seedBase : Nat) :
    Nat → Nat → List DCard → List DCard → List DCard
  | 0, _, _, result => result
  | fuel + 1, attempts, arr, result =>
    if result.length < n ∧ arr.length ≠ 0 then
      let idx := seededIdx (rnd (seedBase + attempts)) arr.length
      match arr.get? idx with
      | none => result
      | some card =>
        let result' :=
          match rankOf card.name with
          | some r =>
            if 0 < r then result ++ [{ card with rank := some r }] else result
          | none => result
        pickLoop rnd rankOf n seedBase fuel (attempts + 1) (spliceAt arr idx)
          result'
    else result

def pickValidRankedCommanders (rnd : Nat → ℚ) (rankOf : String → Option ℚ)
    (pool : List DCard) (n maxAttempts seedBase : Nat) : List DCard :=
  pickLoop rnd rankOf n seedBase maxAttempts 0 pool []

/-- One run of the daily draw at instant `t`: `pickValidRankedCommanders(7)`
with `maxAttempts = 50`, seeded by `getDailySeed()`. -/
def dailySelection (rnd : Nat → ℚ) (rankOf : String → Option ℚ)
    (pool : List DCard) (t : Instant) : List DCard :=
  pickValidRankedCommanders rnd rankOf pool 7 50 (getDailySeed t)

/-! ### Daily guess evaluation (`getRanks`/`handleGuess`, Daily.jsx 6-8, 105-113)

```js
function getRanks(cards) { return cards.map(card => card.rank ?? 9999); }
function handleGuess() {
  const ranks = getRanks(order);
  const sortedRanks = [...ranks].sort((a, b) => a - b);
  const correctness = ranks.map((rank, i) => rank === sortedRanks[i]);
  const ids = order.map(card => card.id).join(',');
  setGuessHistory([...guessHistory, { correctness, ids }]);
  setCorrectPositions(correctness);
  if (correctness.every(Boolean)) setIsSolved(true);
}
```

`sort((a, b) => a - b)` sorts numerically ascending; any correct ascending
sort yields the same value sequence, so it is embedded as an insertion
sort by `≤`. -/

def getRanks (cards : List DCard) : List ℚ :=
  cards.map fun c => c.rank.getD 9999

def sortRanks (l : List ℚ) : List ℚ := l.insertionSort (· ≤ ·)

def handleGuess (order : List DCard) : List Bool × Bool :=
  let ranks := getRanks order
  let sorted := sortRanks ranks
  let correctness := List.zipWith (fun a b => decide (a = b)) ranks sorted
  (correctness, correctness.all id)

/-! ### Daily guess-button gating (Daily.jsx 172-190)

```js
disabled={(() => {
  if (isSolved) return false;
  if (!guessHistory.length) return false;
  const last = guessHistory[guessHistory.length - 1];
  const currentIds = order.map(card => card.id).join(',');
  return last && last.ids === currentIds;
})()}
```
-/

/-- A recorded guess: its correctness vector and the comma-joined id string
of the submitted order. -/
structure DGuess where
  correctness : List Bool
  ids : List Char
deriving DecidableEq, Repr

/-- `Array.prototype.join(',')`: the elements separated by single commas. -/
def joinStrings : List (List Char) → List Char
  | [] => []
  | [x] => x
  | x :: y :: rest => x ++ ',' :: joinStrings (y :: rest)

/-- `order.map(card => card.id).join(',')`. -/
def joinIds (order : List DCard) : List Char :=
  joinStrings (order.map DCard.id)

/-- The entry `handleGuess` appends to `guessHistory`. -/
def recordGuess (order : List DCard) : DGuess :=
  { correctness := (handleGuess order).1, ids := joinIds order }

def guessDisabled (isSolved : Bool) (history : List DGuess)
    (order : List DCard) : Bool :=
  if isSolved then false
  else
    match history.getLast? with
    | none => false
    | some last => last.ids == joinIds order

/-! ### Commander filter (`getFilteredCommanders`, App.jsx 154-165)

```js
function getFilteredCommanders() {
  const now = new Date();
  return commanders.filter(card => {
    if (!includePartner && Array.isArray(card.keywords) && card.keywords.includes("Partner")) return false;
    if (!includeUnreleased && card.released_at && new Date(card.released_at) > now) return false;
    if (!includeIllegal && card.legalities && card.legalities.commander !== "legal") return false;
    return true;
  });
}
```
-/

structure Legalities where
  commander : Option String
deriving DecidableEq, Repr, Inhabited

/-- A dataset card, with exactly the fields the filter and the pair loader
read.  `keywords` is `none` when the JSON field is not an array;
`released_at` is the parsed release timestamp (`none` when the field is
absent or falsy, or when parsing fails so that the date comparison is
false); `legalities` is `none` when that field is absent or falsy. -/
structure Card where
  name : String
  keywords : Option (List String)
  released_at : Option ℤ
  legalities : Option Legalities
deriving DecidableEq, Repr, Inhabited

structure FilterConfig where
  includePartner : Bool
  includeUnreleased : Bool
  includeIllegal : Bool
deriving DecidableEq, Repr

/-- `Array.isArray(card.keywords) && card.keywords.includes("Partner")`. -/
def hasPartnerKeyword (c : Card) : Bool :=
  match c.keywords with
  | some ks => ks.contains ("Partner")
  | none => false

/-- `card.released_at && new Date(card.released_at) > now`. -/
def releasedAfter (c : Card) (now : ℤ) : Bool :=
  match c.released_at with
  | some t => now < t
  | none => false

/-- `card.legalities && card.legalities.commander !== "legal"`. -/
def notCommanderLegal (c : Card) : Bool :=
  match c.legalities with
  | some lg => !(lg.commander == some ("legal"))
  | none => false

def getFilteredCommanders (pool : List Card) (cfg : FilterConfig) (now : ℤ) :
    List Card :=
  pool.filter fun card =>
    if !cfg.includePartner && hasPartnerKeyword card then false
    else if !cfg.includeUnreleased && releasedAfter card now then false
    else if !cfg.includeIllegal && notCommanderLegal card then false
    else true

/-! ### Pair loading (`loadNewPair`, App.jsx 167-226)

```js
let left, right, leftRank, rightRank;
let attempts = 0;
const filtered = getFilteredCommanders();
if (!filtered || filtered.length < 2) { /* "Not enough commanders" error */ return; }
do {
  const [leftCard, rightCard] = pickTwoDistinct(filtered).map(...);
  left = leftCard; right = rightCard;
  if (left.name === right.name) { attempts++; continue; }
  const [lRank, rRank] = await Promise.all([fetchEdhrecCommanderRank(left.name),
                                           fetchEdhrecCommanderRank(right.name)]);
  leftRank = lRank; rightRank = rRank;
  attempts++;
} while ((typeof leftRank !== 'number' || leftRank <= 0 ||
          typeof rightRank !== 'number' || rightRank <= 0 ||
          left.name === right.name) && attempts < 10);
if (typeof leftRank !== 'number' || typeof rightRank !== 'number' ||
    left.name === right.name) { /* "Failed to fetch valid commander" error */ }
else { setLeftMeta({ ...left, rank: leftRank }); setRightMeta({ ...right, rank: rightRank }); }
```

The random draws of each iteration are supplied by `draws` (one pair of
underlying uniform indices per loop iteration, indexed by the value of
`attempts` at the start of the iteration) and the rank resolver by `rankOf`
(also indexed per iteration, so the theorems quantify over every resolver
behaviour).  `leftRank`/`rightRank` persist across iterations exactly as
the JS `let` bindings do: an iteration that redraws because of a name
collision leaves the previous ranks in place.  A `none` from
`pickTwoDistinct` (impossible for pools of length ≥ 2) is surfaced as
`crashed`. -/

/-- The mutable loop state: the latest drawn pair and the latest fetched
ranks (`none` models the initial `undefined`, which fails the
`typeof === 'number'` tests). -/
structure PairDraft where
  left : Card
  right : Card
  lRank : Option ℚ
  rRank : Option ℚ
deriving DecidableEq, Repr

/-- Negation of the `do`-`while` retry condition (ignoring the attempt
cap): both ranks are positive numbers and the names differ. -/
def validDraft (st : PairDraft) : Bool :=
  (match st.lRank with | some x => decide (0 < x) | none => false) &&
  (match st.rRank with | some x => decide (0 < x) | none => false) &&
  st.left.name != st.right.name

def loadLoop (pool : List Card) (draws : Nat → Nat × Nat)
    (rankOf : Nat → String → Option ℚ) :
    Nat → Nat → PairDraft → Option PairDraft
  | 0, _, st => some st
  | fuel + 1, attempts, st =>
    match pickTwoDistinct pool (draws attempts).1 (draws attempts).2 with
    | none => none
    | some (l, r) =>
      let st' :=
        if l.name = r.name then { st with left := l, right := r }
        else
          { left := l, right := r,
            lRank := rankOf attempts l.name, rRank := rankOf attempts r.name }
      if validDraft st' ∨ ¬ (attempts + 1 < 10) then some st'
      else loadLoop pool draws rankOf fuel (attempts + 1) st'

inductive LoadOutcome where
  | notEnough
  | errorPair
  | committed (left right : Card) (lRank rRank : ℚ)
  | crashed
deriving DecidableEq, Repr

def loadNewPair (pool : List Card) (cfg : FilterConfig) (now : ℤ)
    (draws : Nat → Nat × Nat) (rankOf : Nat → String → Option ℚ) :
    LoadOutcome :=
  let filtered := getFilteredCommanders pool cfg now
  if filtered.length < 2 then .notEnough
  else
    match loadLoop filtered draws rankOf 10 0 ⟨default, default, none, none⟩ with
    | none => .crashed
    | some st =>
      match st.lRank, st.rRank with
      | some lR, some rR =>
        if st.left.name = st.right.name then .errorPair
        else .committed st.left st.right lR rR
      | _, _ => .errorPair

/-! ### Rank resolver (`getLatestCommanderRank` / `fetchEdhrecCommanderRank`,
App.jsx 475-519)

```js
function getLatestCommanderRank(json) {
  if (!json || typeof json !== 'object') return null;
  const container = json.container;
  if (!container || typeof container !== 'object') return null;
  const jsonDict = container.json_dict;
  if (!jsonDict || typeof jsonDict !== 'object') return null;
  const card = jsonDict.card;
  if (!card || typeof card !== 'object') return null;
  if (typeof card.rank === 'number') return card.rank;
  if (typeof card.rank === 'string') return Number(card.rank);
  return null;
}
async function fetchEdhrecCommanderRank(slugOrName) {
  const slug = slugify(slugOrName || "");
  const urlsToTry = [`.../${slug}.json`, `.../${slug}-1.json`];
  for (const url of urlsToTry) {
    try {
      const res = await fetch(url);
      if (!res.ok) continue;
      const j = await res.json();
      const latestRank = getLatestCommanderRank(j);
      if (latestRank != null) return Number(latestRank);
      if (j.rank) return Number(j.rank);
      if (j.stats && j.stats.rank) return Number(j.stats.rank);
      if (j.meta && j.meta.rank) return Number(j.meta.rank);
      if (j.items && Array.isArray(j.items)) {
        for (const it of j.items) {
          if (it && typeof it === 'object' && (it.rank || it.stats?.rank)) {
            return Number(it.rank || it.stats?.rank);
          }
        }
      }
    } catch (e) { /* try next */ }
  }
  return null;
}
```

JSON values produced by `res.json()` are modelled by `JVal` (JSON has no
`NaN`, so numbers are plain `ℚ`); `Number(...)` applied to a JSON value can
however produce `NaN`, so converted numbers are `Option ℚ` with `none` for
`NaN`, and the result of the whole resolver is `Option (Option ℚ)` with the
outer `none` for `null`.  `Number` on strings is left abstract as a
`parseNum` parameter (no claim depends on its values).  The two network
responses for the two fixed URLs (bare slug, then slug with a `-1` suffix)
are passed positionally as `r1` and `r2`; `netErr` (fetch rejects), `notOk`
(non-2xx status) and `badBody` (`res.json()` throws) all make the loop try
the next URL.  A JS exception thrown while probing a body (e.g. `j.rank` on
`null`) is caught by the `try` and also falls through to the next URL, which
coincides with the `none` produced here for such bodies.  `Number` on a
one-element array goes through the element's string form, which the `jarr
[v]` case mirrors for the value shapes a rank field can take; this value is
irrelevant to the claims checked here. -/

inductive JVal where
  | jnull
  | jbool (b : Bool)
  | jnum (q : ℚ)
  | jstr (s : String)
  | jarr (elems : List JVal)
  | jobj (fields : List (String × JVal))

/-- JS property access `v[key]`: `none` models `undefined` (also for access
on non-objects, which does not throw).  Parsed JSON objects are assumed
duplicate-key-free, as `JSON.parse` keeps a single binding per key. -/
def getField : JVal → String → Option JVal
  | .jobj fields, key => (fields.find? (fun p => p.1 == key)).map Prod.snd
  | _, _ => none

/-- JS truthiness of a parsed JSON value. -/
def truthy : JVal → Bool
  | .jnull => false
  | .jbool b => b
  | .jnum q => !(q == 0)
  | .jstr s => !(s == "")
  | .jarr _ => true
  | .jobj _ => true

/-- `v && typeof v === 'object'`: a truthy value of JS type object. -/
def isObjLike : JVal → Bool
  | .jarr _ => true
  | .jobj _ => true
  | _ => false

/-- JS `Number(v)` on a parsed JSON value; `none` is `NaN`. -/
def jsToNumber (parseNum : String → Option ℚ) : JVal → Option ℚ
  | .jnum q => some q
  | .jstr s => parseNum s
  | .jbool true => some 1
  | .jbool false => some 0
  | .jnull => some 0
  | .jarr [] => some 0
  | .jarr [v] => jsToNumber parseNum v
  | .jarr (_ :: _ :: _) => none
  | .jobj _ => none

def getLatestCommanderRank (parseNum : String → Option ℚ) (j : JVal) :
    Option (Option ℚ) :=
  match getField j ("container") with
  | none => none
  | some container =>
    if isObjLike container then
      match getField container ("json_dict") with
      | none => none
      | some jsonDict =>
        if isObjLike jsonDict then
          match getField jsonDict ("card") with
          | none => none
          | some card =>
            if isObjLike card then
              match getField card ("rank") with
              | some (.jnum q) => some (some q)
              | some (.jstr s) => some (parseNum s)
              | _ => none
            else none
        else none
    else none

/-- `if (j[key]) return Number(j[key])`. -/
def rankFromField (parseNum : String → Option ℚ) (j : JVal) (key : String) :
    Option (Option ℚ) :=
  match getField j key with
  | some v => if truthy v then some (jsToNumber parseNum v) else none
  | none => none

/-- `if (j[key] && j[key].rank) return Number(j[key].rank)`. -/
def rankFromNested (parseNum : String → Option ℚ) (j : JVal) (key : String) :
    Option (Option ℚ) :=
  match getField j key with
  | some inner =>
    if truthy inner then rankFromField parseNum inner ("rank") else none
  | none => none

/-- Optional chaining `it.stats?.rank`. -/
def optRank (it : JVal) : Option JVal :=
  match getField it ("stats") with
  | some .jnull => none
  | some st => getField st ("rank")
  | none => none

/-- JS `a || b` on two possibly-undefined values. -/
def jsOr (a b : Option JVal) : Option JVal :=
  match a with
  | some v => if truthy v then some v else b
  | none => b

/-- The `for (const it of j.items)` loop. -/
def findRankInItems (parseNum : String → Option ℚ) :
    List JVal → Option (Option ℚ)
  | [] => none
  | it :: rest =>
    if isObjLike it then
      match jsOr (getField it ("rank")) (optRank it) with
      | some v =>
        if truthy v then some (jsToNumber parseNum v)
        else findRankInItems parseNum rest
      | none => findRankInItems parseNum rest
    else findRankInItems parseNum rest

/-- All rank-extraction heuristics applied to one response body, in source
order; `none` means no heuristic produced a value and the loop moves to the
next URL. -/
def extractFromBody (parseNum : String → Option ℚ) (j : JVal) :
    Option (Option ℚ) :=
  match getLatestCommanderRank parseNum j with
  | some v => some v
  | none =>
  match rankFromField parseNum j ("rank") with
  | some v => some v
  | none =>
  match rankFromNested parseNum j ("stats") with
  | some v => some v
  | none =>
  match rankFromNested parseNum j ("meta") with
  | some v => some v
  | none =>
  match getField j ("items") with
  | some (.jarr items) => findRankInItems parseNum items
  | _ => none

/-- The observable behaviour of one `fetch`: rejection, a non-OK status, a
body on which `res.json()` throws, or a parsed JSON body. -/
inductive Resp where
  | netErr
  | notOk
  | badBody
  | ok (j : JVal)

/-- What one iteration of the URL loop yields: a hit, or fall-through. -/
def tryResp (parseNum : String → Option ℚ) : Resp → Option (Option ℚ)
  | .ok j => extractFromBody parseNum j
  | _ => none

def fetchEdhrecCommanderRank (parseNum : String → Option ℚ) (r1 r2 : Resp) :
    Option (Option ℚ) :=
  match tryResp parseNum r1 with
  | some v => some v
  | none =>
    match tryResp parseNum r2 with
    | some v => some v
    | none => none

/-! ### Slug normalization (`slugify`, App.jsx 95-104)

```js
function slugify(name) {
  return String(name)
    .normalize('NFD')
    .replace(/\p{Diacritic}/gu, '')
    .toLowerCase()
    .replace(/["'!\?\(\):,\.]/g, "")
    .replace(/[^a-z0-9]+/g, "-")
    .replace(/^-+|-+$/g, "");
}
```

Strings are `List Char`.  Unicode NFD normalization, the `\p{Diacritic}`
character class and `toLowerCase` are not re-implemented: they enter as
parameters `nfd`, `isDia` and `lower`, constrained exactly by the Unicode
facts the proofs need — each fixes strings made of lowercase ASCII
alphanumerics and hyphens (ASCII is NFD-invariant, no slug character is a
diacritic mark, and lowercasing fixes lowercase strings).  The remaining
steps are concrete character operations: the punctuation class is the nine
code points of the regex, `[^a-z0-9]+ → "-"` is a run-collapsing scan, and
the final trim removes one leading and one trailing hyphen run. -/

/-- `[a-z0-9]` by code point. -/
def isLowerAlnum (c : Char) : Bool :=
  (97 ≤ c.toNat && c.toNat ≤ 122) || (48 ≤ c.toNat && c.toNat ≤ 57)

/-- The hyphen test (`==` on the one character the scan inserts). -/
def isHy (c : Char) : Bool := c == '-'

/-- A character that can occur in a slug: `[a-z0-9-]`. -/
def isSlugChar (c : Char) : Bool := isLowerAlnum c || isHy c

/-- The punctuation class `["'!\?\(\):,\.]` by code point:
`" ' ! ? ( ) : , .` are 34, 39, 33, 63, 40, 41, 58, 44, 46. -/
def isPunct (c : Char) : Bool :=
  c.toNat == 34 || c.toNat == 39 || c.toNat == 33 || c.toNat == 63 ||
  c.toNat == 40 || c.toNat == 41 || c.toNat == 58 || c.toNat == 44 ||
  c.toNat == 46

/-- `.replace(/["'!\?\(\):,\.]/g, "")`. -/
def removePunct (s : List Char) : List Char := s.filter (fun c => !isPunct c)

/-- `.replace(/\p{Diacritic}/gu, '')` for the diacritic test `isDia`. -/
def removeDiacritics (isDia : Char → Bool) (s : List Char) : List Char :=
  s.filter (fun c => !isDia c)

/-- The scan implementing `.replace(/[^a-z0-9]+/g, "-")`: the flag records
whether the scan is inside a run of non-alphanumerics (for which a single
`-` has already been emitted). -/
def collapseAux : Bool → List Char → List Char
  | _, [] => []
  | inRun, c :: rest =>
    if isLowerAlnum c then c :: collapseAux false rest
    else if inRun then collapseAux true rest
    else '-' :: collapseAux true rest

def collapseNonAlnum (s : List Char) : List Char := collapseAux false s

/-- `.replace(/^-+|-+$/g, "")`: strip one leading and one trailing hyphen
run. -/
def trimHyphens (s : List Char) : List Char :=
  ((s.dropWhile fun c => isHy c).reverse.dropWhile fun c => isHy c).reverse

def slugify (nfd : List Char → List Char) (isDia : Char → Bool)
    (lower : List Char → List Char) (s : List Char) : List Char :=
  trimHyphens (collapseNonAlnum (removePunct (lower
    (removeDiacritics isDia (nfd s)))))

/- Matcher for the regex `^[a-z0-9]+(-[a-z0-9]+)*$`: `slugNeedRun` expects
at least one more alphanumeric (the start of a run), `slugAfterRun` has
just read one. -/
mutual
def slugAfterRun : List Char → Bool
  | [] => true
  | c :: rest =>
    if isHy c then slugNeedRun rest else isLowerAlnum c && slugAfterRun rest
def slugNeedRun : List Char → Bool
  | [] => false
  | c :: rest => isLowerAlnum c && slugAfterRun rest
end

/-- The shape the spec asserts: empty, or matching
`^[a-z0-9]+(-[a-z0-9]+)*$`. -/
def matchesSlug (s : List Char) : Bool :=
  match s with
  | [] => true
  | _ => slugNeedRun s

/-- No element of `s` is a hyphen-adjacent-to-hyphen: the relation used to
state that the scan never emits two consecutive hyphens. -/
def NoHH (a b : Char) : Prop := ¬ (isHy a = true ∧ isHy b = true)

/-- The first character, when present, is not a hyphen. -/
def HeadNotHy (s : List Char) : Prop :=
  ∀ c, s.head? = some c → isHy c = false

/-- The last character, when present, is not a hyphen. -/
def LastNotHy (s : List Char) : Prop :=
  ∀ c, s.getLast? = some c → isHy c = false

/-! ### Theorems -/

/-- C2: for an array of length `n ≥ 2` and draws `a ∈ [0,n)`, `b0 ∈ [0,n-1)`,
`pickTwoDistinct` returns the elements at two distinct in-range indices
`(a, shiftIdx a b0)`; the map `(a, b0) ↦ (a, shiftIdx a b0)` is a bijection
from the draw space onto the set of ordered distinct index pairs (hence the
selection is uniform over unordered pairs); for arrays of length `< 2` the
result is `null`. -/
theorem pickTwoDistinct_bijective {α : Type} [Inhabited α] (arr : List α) :
    (arr.length < 2 → ∀ a b0, pickTwoDistinct arr a b0 = none) ∧
    (2 ≤ arr.length → ∀ a b0, a < arr.length → b0 < arr.length - 1 →
      a < arr.length ∧ shiftIdx a b0 < arr.length ∧ a ≠ shiftIdx a b0 ∧
      pickTwoDistinct arr a b0 =
        some (arr.getD a default, arr.getD (shiftIdx a b0) default)) ∧
    Set.BijOn (fun q : Nat × Nat => (q.1, shiftIdx q.1 q.2))
      {q : Nat × Nat | q.1 < arr.length ∧ q.2 < arr.length - 1}
      {q : Nat × Nat | q.1 < arr.length ∧ q.2 < arr.length ∧ q.1 ≠ q.2} := by
  refine ⟨?_, ?_, ?_, ?_, ?_⟩
  · intro h a b0
    simp [pickTwoDistinct, h]
  · intro h a b0 ha hb0
    have hb : shiftIdx a b0 < arr.length := by
      unfold shiftIdx; split <;> omega
    have hne : a ≠ shiftIdx a b0 := by
      unfold shiftIdx; split <;> omega
    refine ⟨ha, hb, hne, ?_⟩
    have hga : arr[a]? = some arr[a] := List.getElem?_eq_getElem ha
    have hgb : arr[shiftIdx a b0]? = some arr[shiftIdx a b0] :=
      List.getElem?_eq_getElem hb
    simp [pickTwoDistinct, if_neg (by omega : ¬ arr.length < 2), hga, hgb,
      List.getD_eq_getElem?_getD]
  -- maps-to
  · rintro ⟨a, b0⟩ ⟨ha, hb0⟩
    refine ⟨ha, ?_, ?_⟩ <;> simp only [shiftIdx] <;> split <;> omega
  -- injectivity on the draw space
  · rintro ⟨a, b0⟩ ⟨ha, hb0⟩ ⟨a', b0'⟩ ⟨ha', hb0'⟩ h
    have h1 : a = a' := congrArg Prod.fst h
    have h2 : shiftIdx a b0 = shiftIdx a' b0' := congrArg Prod.snd h
    subst h1
    simp only [shiftIdx] at h2
    have : b0 = b0' := by
      by_cases hc : a ≤ b0 <;> by_cases hc' : a ≤ b0' <;>
        simp [hc, hc'] at h2 <;> omega
    simp [this]
  -- surjectivity onto ordered distinct pairs
  · rintro ⟨i, j⟩ ⟨hi, hj, hij⟩
    refine ⟨(i, if i < j then j - 1 else j), ⟨hi, by split <;> omega⟩, ?_⟩
    simp only [shiftIdx, Prod.mk.injEq]
    refine ⟨by simp, ?_⟩
    by_cases hlt : i < j
    · simp only [if_pos hlt]
      rw [if_pos (by omega : i ≤ j - 1)]
      omega
    · simp only [if_neg hlt]
      rw [if_neg (by omega : ¬ i ≤ j)]

/-- Witness for C2 at a concrete pool of 3 elements with draws `(1, 1)`. -/
theorem pickTwoDistinct_bijective_witness :
    pickTwoDistinct [10, 20, 30] 1 1 = some (20, 30) := by
  have h := (pickTwoDistinct_bijective (α := Nat) [10, 20, 30]).2.1
    (by decide) 1 1 (by decide) (by decide)
  have := h.2.2.2
  simpa [shiftIdx] using this

/-- C3: for numeric ranks the evaluator classifies `tie` iff the ranks are
equal and otherwise picks the side holding the strictly lower rank; a correct
guess increments the streak and raises the high-water mark when exceeded; a
tie leaves the state unchanged; a wrong guess records the pre-reset streak in
`lastStreak` and resets the streak to 0.  In particular ranks `[5, 3]` for
`[left, right]` yield `correct = 'right'`, and `[4, 4]` yields `'tie'` with
the streak unchanged. -/
theorem makeGuess_spec (a b : ℚ) (side : Side) (st : PairScore) :
    ((makeGuess side (some a) (some b) st).1 = .tie ↔ a = b) ∧
    (a < b → (makeGuess side (some a) (some b) st).1 = .left) ∧
    (b < a → (makeGuess side (some a) (some b) st).1 = .right) ∧
    ((makeGuess side (some a) (some b) st).1 = side.toResult →
      (makeGuess side (some a) (some b) st).2 =
        { st with
          streak := st.streak + 1
          highestStreak := max st.highestStreak (st.streak + 1) }) ∧
    ((makeGuess side (some a) (some b) st).1 = .tie →
      (makeGuess side (some a) (some b) st).2 = st) ∧
    ((makeGuess side (some a) (some b) st).1 ≠ .tie →
      (makeGuess side (some a) (some b) st).1 ≠ side.toResult →
      (makeGuess side (some a) (some b) st).2 =
        { st with lastStreak := some st.streak, streak := 0 }) ∧
    (makeGuess side (some 5) (some 3) st).1 = .right ∧
    (makeGuess side (some 4) (some 4) st).1 = .tie ∧
    (makeGuess side (some 4) (some 4) st).2 = st := by
  have hfst : ∀ l r, (makeGuess side l r st).1 = compareRanks l r :=
    fun _ _ => rfl
  have hsnd : ∀ l r, (makeGuess side l r st).2 =
      if compareRanks l r = side.toResult then
        { st with
          streak := st.streak + 1
          highestStreak :=
            if st.highestStreak < st.streak + 1 then st.streak + 1
            else st.highestStreak }
      else if compareRanks l r = .tie then st
      else { st with lastStreak := some st.streak, streak := 0 } :=
    fun _ _ => rfl
  have htie : GuessResult.tie ≠ side.toResult := by
    cases side <;> simp [Side.toResult]
  have hmax : (if st.highestStreak < st.streak + 1 then st.streak + 1
      else st.highestStreak) = max st.highestStreak (st.streak + 1) := by
    split <;> omega
  refine ⟨?_, ?_, ?_, ?_, ?_, ?_, ?_, ?_, ?_⟩
  · rw [hfst]
    simp only [compareRanks]
    split_ifs <;> simp_all
  · intro hab
    rw [hfst]
    simp [compareRanks, ne_of_lt hab, hab]
  · intro hba
    rw [hfst]
    simp [compareRanks, (ne_of_lt hba).symm, not_lt_of_gt hba]
  · intro hc
    rw [hfst] at hc
    rw [hsnd, if_pos hc, hmax]
  · intro hc
    rw [hfst] at hc
    rw [hsnd, if_neg (hc ▸ htie), if_pos hc]
  · intro hc1 hc2
    rw [hfst] at hc1 hc2
    rw [hsnd, if_neg hc2, if_neg hc1]
  · rw [hfst]
    norm_num [compareRanks]
  · rw [hfst]
    norm_num [compareRanks]
  · have hc : compareRanks (some (4 : ℚ)) (some 4) = .tie := by
      norm_num [compareRanks]
    rw [hsnd, hc, if_neg htie, if_pos rfl]

/-- Witness for C3: guessing left with ranks `(2, 7)` is correct. -/
theorem makeGuess_spec_witness :
    (makeGuess Side.left (some 2) (some 7) ⟨3, none, 3⟩).1 = .left :=
  (makeGuess_spec 2 7 Side.left ⟨3, none, 3⟩).2.1 (by norm_num)

/-- C10: in `makeGuess` a rank that is not a number is treated as `+∞`:
when both ranks are missing the outcome is a tie and the streak state is
unchanged; when exactly one rank is numeric, the side holding the numeric
rank is the correct answer, for every guessed side. -/
theorem makeGuess_missing_rank (side : Side) (st : PairScore) (q : ℚ) :
    (makeGuess side none none st).1 = .tie ∧
    (makeGuess side none none st).2 = st ∧
    (makeGuess side (some q) none st).1 = .left ∧
    (makeGuess side none (some q) st).1 = .right := by
  have htie : GuessResult.tie ≠ side.toResult := by
    cases side <;> simp [Side.toResult]
  refine ⟨rfl, ?_, rfl, rfl⟩
  simp [makeGuess, compareRanks, htie]

/-- The daily seed strictly increases from one calendar day to the next
(for dates the JS `Date` object can produce). -/
theorem seed_lt_seed_nextDay (d : UTCDate) (hv : ValidDate d) :
    d.year * 10000 + d.month * 100 + d.day <
      (nextDay d).year * 10000 + (nextDay d).month * 100 + (nextDay d).day := by
  have hdm : daysInMonth d.year d.month ≤ 31 := by
    unfold daysInMonth
    split_ifs <;> omega
  obtain ⟨h1, h2, h3, h4⟩ := hv
  unfold nextDay
  split_ifs with hd hm <;> simp <;> omega

/-- C1: for a fixed candidate pool, a fixed mapping from card names to rank
answers and a fixed seeded-random function, two runs of the daily selection
at instants of the same UTC calendar day produce the same result list in the
same order; `getDailySeed` returns the same integer at any two instants of
the same UTC day and a different integer at any instant of the following
day. -/
theorem dailySelection_deterministic (rnd : Nat → ℚ)
    (rankOf : String → Option ℚ) (pool : List DCard) (t1 t2 : Instant)
    (h : t1.date = t2.date) :
    getDailySeed t1 = getDailySeed t2 ∧
    dailySelection rnd rankOf pool t1 = dailySelection rnd rankOf pool t2 ∧
    (ValidDate t1.date → ∀ t3 : Instant, t3.date = nextDay t1.date →
      getDailySeed t3 ≠ getDailySeed t1) := by
  have hseed : getDailySeed t1 = getDailySeed t2 := by
    unfold getDailySeed
    rw [h]
  refine ⟨hseed, ?_, ?_⟩
  · unfold dailySelection
    rw [hseed]
  · intro hv t3 h3
    have hlt := seed_lt_seed_nextDay t1.date hv
    unfold getDailySeed
    rw [h3]
    omega

/-- Witness for C1: 2026-10-12 at two different times of day, versus
2026-10-13. -/
theorem dailySelection_deterministic_witness :
    getDailySeed ⟨⟨2026, 10, 12⟩, 5⟩ = getDailySeed ⟨⟨2026, 10, 12⟩, 999⟩ ∧
    dailySelection (fun _ => 0) (fun _ => none) [] ⟨⟨2026, 10, 12⟩, 5⟩ =
      dailySelection (fun _ => 0) (fun _ => none) [] ⟨⟨2026, 10, 12⟩, 999⟩ ∧
    getDailySeed ⟨⟨2026, 10, 13⟩, 0⟩ ≠ getDailySeed ⟨⟨2026, 10, 12⟩, 5⟩ := by
  have h := dailySelection_deterministic (fun _ => 0) (fun _ => none) []
    ⟨⟨2026, 10, 12⟩, 5⟩ ⟨⟨2026, 10, 12⟩, 999⟩ rfl
  exact ⟨h.1, h.2.1, h.2.2 ⟨by decide, by decide, by decide, by decide⟩
    ⟨⟨2026, 10, 13⟩, 0⟩ (by decide)⟩

/-- Pointwise equality of two equally long rank lists is what
`correctness.every(Boolean)` computes. -/
theorem all_zipWith_eq_iff :
    ∀ (l1 l2 : List ℚ), l1.length = l2.length →
      ((List.zipWith (fun a b => decide (a = b)) l1 l2).all id = true ↔ l1 = l2)
  | [], [], _ => by simp
  | [], _ :: _, h => by simp at h
  | _ :: _, [], h => by simp at h
  | a :: l1, b :: l2, h => by
    simp only [List.zipWith, List.all_cons, id, Bool.and_eq_true,
      decide_eq_true_eq, List.cons.injEq]
    rw [all_zipWith_eq_iff l1 l2 (by simpa using h)]

/-- C4: the daily evaluator compares the player's rank sequence position by
position with its ascending sort; position `i` is marked correct iff the
rank at `i` equals the `i`-th element of the sorted rank list, and the round
is solved exactly when every position matches (equivalently, when the rank
sequence is already sorted).  Ranks `[10, 3, 7]` in player order yield
`[false, false, false]`; ranks `[3, 7, 10]` yield `[true, true, true]` and
solve the round. -/
theorem handleGuess_spec (order : List DCard) :
    (handleGuess order).1.length = order.length ∧
    (∀ i, i < order.length →
      ((handleGuess order).1.get? i = some true ↔
        (getRanks order).get? i = (sortRanks (getRanks order)).get? i)) ∧
    ((handleGuess order).2 = true ↔
      getRanks order = sortRanks (getRanks order)) ∧
    handleGuess [⟨[], "x", some 10⟩, ⟨[], "y", some 3⟩, ⟨[], "z", some 7⟩] =
      ([false, false, false], false) ∧
    handleGuess [⟨[], "y", some 3⟩, ⟨[], "z", some 7⟩, ⟨[], "x", some 10⟩] =
      ([true, true, true], true) := by
  have hlenr : (getRanks order).length = order.length := by
    simp [getRanks]
  have hlens : (sortRanks (getRanks order)).length = (getRanks order).length :=
    List.length_insertionSort _ _
  have hfst : (handleGuess order).1 =
      List.zipWith (fun a b => decide (a = b)) (getRanks order)
        (sortRanks (getRanks order)) := rfl
  have hsnd : (handleGuess order).2 = ((handleGuess order).1).all id := rfl
  refine ⟨?_, ?_, ?_, by decide, by decide⟩
  · rw [hfst, List.length_zipWith]
    omega
  · intro i hi
    rw [hfst, List.get?_zipWith_eq_some]
    constructor
    · rintro ⟨x, y, hx, hy, hxy⟩
      rw [hx, hy]
      simp only [decide_eq_true_eq] at hxy
      rw [hxy]
    · intro heq
      have hir : i < (getRanks order).length := by omega
      obtain ⟨x, hx⟩ : ∃ x, (getRanks order).get? i = some x :=
        ⟨(getRanks order).get ⟨i, hir⟩, List.get?_eq_get hir⟩
      exact ⟨x, x, hx, by rw [← heq, hx], by simp⟩
  · rw [hsnd, hfst, all_zipWith_eq_iff _ _ (by omega)]

/-- Witness for C4 on a two-card order that is already sorted. -/
theorem handleGuess_spec_witness :
    (handleGuess [⟨[], "a", some 3⟩, ⟨[], "b", some 5⟩]).1.length = 2 ∧
    ((handleGuess [⟨[], "a", some 3⟩, ⟨[], "b", some 5⟩]).1.get? 0 = some true ↔
      (getRanks [⟨[], "a", some 3⟩, ⟨[], "b", some 5⟩]).get? 0 =
        (sortRanks (getRanks [⟨[], "a", some 3⟩, ⟨[], "b", some 5⟩])).get? 0) := by
  have h := handleGuess_spec [⟨[], "a", some 3⟩, ⟨[], "b", some 5⟩]
  exact ⟨h.1, h.2.1 0 (by norm_num)⟩

/-- C8: the commander filter keeps exactly the cards for which none of the
three exclusion conditions holds — (`includePartner` off and the card has
the Partner keyword), (`includeUnreleased` off and the card's release date
lies after the evaluation time), (`includeIllegal` off and the card's
commander legality is not exactly "legal") — and the result is a
subsequence of the pool, so the original relative order is preserved. -/
theorem getFilteredCommanders_spec (pool : List Card) (cfg : FilterConfig)
    (now : ℤ) :
    (getFilteredCommanders pool cfg now).Sublist pool ∧
    ∀ c, c ∈ getFilteredCommanders pool cfg now ↔
      (c ∈ pool ∧
        ¬ (cfg.includePartner = false ∧ hasPartnerKeyword c = true) ∧
        ¬ (cfg.includeUnreleased = false ∧ releasedAfter c now = true) ∧
        ¬ (cfg.includeIllegal = false ∧ notCommanderLegal c = true)) := by
  refine ⟨List.filter_sublist _, fun c => ?_⟩
  unfold getFilteredCommanders
  rw [List.mem_filter]
  have hp :
      ((if !cfg.includePartner && hasPartnerKeyword c then false
        else if !cfg.includeUnreleased && releasedAfter c now then false
        else if !cfg.includeIllegal && notCommanderLegal c then false
        else true) = true) ↔
      (¬ (cfg.includePartner = false ∧ hasPartnerKeyword c = true) ∧
        ¬ (cfg.includeUnreleased = false ∧ releasedAfter c now = true) ∧
        ¬ (cfg.includeIllegal = false ∧ notCommanderLegal c = true)) := by
    split_ifs with h1 h2 h3 <;> simp_all
  rw [hp]

/-- Witness for C8: a Partner card is excluded when `includePartner` is
off. -/
theorem getFilteredCommanders_spec_witness :
    (⟨"A", some [("Partner")], none, none⟩ : Card) ∉
      getFilteredCommanders [⟨"A", some [("Partner")], none, none⟩]
        ⟨false, true, true⟩ 0 := by
  intro hc
  have h := (getFilteredCommanders_spec [⟨"A", some [("Partner")], none, none⟩]
    ⟨false, true, true⟩ 0).2 ⟨"A", some [("Partner")], none, none⟩
  exact (h.mp hc).2.1 ⟨rfl, by decide⟩

/-- Splitting at the first comma of a comma-free-prefixed string is
unambiguous. -/
theorem append_comma_cancel (a : List Char) :
    ∀ (b u v : List Char), ',' ∉ a → ',' ∉ b →
      a ++ ',' :: u = b ++ ',' :: v → a = b ∧ u = v := by
  induction a with
  | nil =>
    intro b u v _ hb h
    cases b with
    | nil => simpa using h
    | cons c b' =>
      simp only [List.nil_append, List.cons_append, List.cons.injEq] at h
      exact absurd (h.1 ▸ List.mem_cons_self ',' b') (by simp_all)
  | cons c a' ih =>
    intro b u v ha hb h
    cases b with
    | nil =>
      simp only [List.cons_append, List.nil_append, List.cons.injEq] at h
      exact absurd (h.1 ▸ List.mem_cons_self c a') (by simp_all)
  
    | cons d b' =>
      simp only [List.cons_append, List.cons.injEq] at h
      obtain ⟨hcd, h2⟩ := h
      have hrec := ih b' u v (by simp_all) (by simp_all) h2
      exact ⟨by rw [hcd, hrec.1], hrec.2⟩

/-- On equally long lists of comma-free strings, `join(',')` is injective. -/
theorem joinStrings_injective :
    ∀ (xs ys : List (List Char)), xs.length = ys.length →
      (∀ x ∈ xs, ',' ∉ x) → (∀ y ∈ ys, ',' ∉ y) →
      joinStrings xs = joinStrings ys → xs = ys := by
  intro xs
  induction xs with
  | nil =>
    intro ys h _ _ _
    cases ys with
    | nil => rfl
    | cons _ _ => simp at h
  | cons x xs' ih =>
    intro ys h hx hy hj
    cases ys with
    | nil => simp at h
    | cons y ys' =>
      cases xs' with
      | nil =>
        cases ys' with
        | nil =>
          simp only [joinStrings] at hj
          rw [hj]
        | cons _ _ => simp at h
      | cons x2 xs'' =>
        cases ys' with
        | nil => simp at h
        | cons y2 ys'' =>
          simp only [joinStrings] at hj
          obtain ⟨h1, h2⟩ := append_comma_cancel x (y)
            (joinStrings (x2 :: xs'')) (joinStrings (y2 :: ys''))
            (hx x (by simp)) (hy y (by simp)) hj
          have hrec := ih (y2 :: ys'') (by simpa using h)
            (fun a ha => hx a (List.mem_cons_of_mem x ha))
            (fun a ha => hy a (List.mem_cons_of_mem y ha)) h2
          rw [h1, hrec]

/-- C9: in daily mode, when the round is unsolved and the last history entry
was recorded from a previous order, the guess button is disabled exactly
when the current order's sequence of card ids equals the previous order's id
sequence (provided ids are comma-free, as Scryfall UUIDs are, so that the
comma-joined comparison the code performs coincides with sequence equality);
once the round is solved the button is never disabled. -/
theorem guessDisabled_spec (history : List DGuess)
    (prevOrder order : List DCard) (hlen : order.length = prevOrder.length)
    (hc1 : ∀ c ∈ order, ',' ∉ c.id) (hc2 : ∀ c ∈ prevOrder, ',' ∉ c.id) :
    guessDisabled true history order = false ∧
    (guessDisabled false (history ++ [recordGuess prevOrder]) order = true ↔
      order.map DCard.id = prevOrder.map DCard.id) := by
  refine ⟨rfl, ?_⟩
  have hred : guessDisabled false (history ++ [recordGuess prevOrder]) order =
      (joinIds prevOrder == joinIds order) := by
    simp [guessDisabled, List.getLast?_concat, recordGuess]
  rw [hred, beq_iff_eq]
  constructor
  · intro h
    exact joinStrings_injective (order.map DCard.id) (prevOrder.map DCard.id)
      (by simp [hlen])
      (by
        intro a ha
        obtain ⟨c, hc, rfl⟩ := List.mem_map.mp ha
        exact hc1 c hc)
      (by
        intro a ha
        obtain ⟨c, hc, rfl⟩ := List.mem_map.mp ha
        exact hc2 c hc)
      (by unfold joinIds at h; exact h.symm)
  · intro h
    unfold joinIds
    rw [h]

/-- Witness for C9: resubmitting the identical one-card order is
rejected. -/
theorem guessDisabled_spec_witness :
    guessDisabled false ([] ++ [recordGuess [⟨['a'], "A", some 1⟩]])
      [⟨['a'], "A", some 1⟩] = true := by
  have h := guessDisabled_spec [] [⟨['a'], "A", some 1⟩] [⟨['a'], "A", some 1⟩]
    rfl (by decide) (by decide)
  exact h.2.mpr rfl

/-- For pools of length ≥ 2 and in-range draws the sampler always yields a
pair (the `none` branches are unreachable). -/
theorem pickTwoDistinct_isSome {α : Type} [Inhabited α] (arr : List α)
    (a b0 : Nat) (h2 : 2 ≤ arr.length) (ha : a < arr.length)
    (hb0 : b0 < arr.length - 1) :
    ∃ x y, pickTwoDistinct arr a b0 = some (x, y) := by
  have hb : shiftIdx a b0 < arr.length := by
    unfold shiftIdx
    split <;> omega
  have hga : arr[a]? = some arr[a] := List.getElem?_eq_getElem ha
  have hgb : arr[shiftIdx a b0]? = some arr[shiftIdx a b0] :=
    List.getElem?_eq_getElem hb
  exact ⟨arr[a], arr[shiftIdx a b0], by
    simp [pickTwoDistinct, if_neg (by omega : ¬ arr.length < 2), hga, hgb]⟩

/-- The retry loop of `loadNewPair` never reaches the crash branch when the
pool has at least two entries and the underlying draws are in range. -/
theorem loadLoop_ne_none (pool : List Card) (draws : Nat → Nat × Nat)
    (rankOf : Nat → String → Option ℚ) (hpool : 2 ≤ pool.length)
    (hdraws : ∀ k, (draws k).1 < pool.length ∧
      (draws k).2 < pool.length - 1) :
    ∀ fuel attempts st, loadLoop pool draws rankOf fuel attempts st ≠ none := by
  intro fuel
  induction fuel with
  | zero => intro attempts st; simp [loadLoop]
  | succ f ih =>
    intro attempts st
    obtain ⟨x, y, hxy⟩ := pickTwoDistinct_isSome pool (draws attempts).1
      (draws attempts).2 hpool (hdraws attempts).1 (hdraws attempts).2
    simp only [loadLoop, hxy]
    split <;> split
    · simp
    · exact ih (attempts + 1) _
    · simp
    · exact ih (attempts + 1) _

/-- The retry loop reads the draw and rank oracles only at the iteration
indices it actually visits. -/
theorem loadLoop_congr (pool : List Card) (draws draws' : Nat → Nat × Nat)
    (rankOf rankOf' : Nat → String → Option ℚ)
    (hd : ∀ k, k < 10 → draws k = draws' k)
    (hr : ∀ k, k < 10 → rankOf k = rankOf' k) :
    ∀ fuel attempts st, attempts + fuel ≤ 10 →
      loadLoop pool draws rankOf fuel attempts st =
        loadLoop pool draws' rankOf' fuel attempts st := by
  intro fuel
  induction fuel with
  | zero => intro attempts st _; rfl
  | succ f ih =>
    intro attempts st hle
    have hk : attempts < 10 := by omega
    rw [loadLoop, loadLoop, ← hd attempts hk, ← hr attempts hk]
    cases pickTwoDistinct pool (draws attempts).1 (draws attempts).2 with
    | none => rfl
    | some p =>
      cases p with
      | mk l r =>
        simp only
        split <;> split
        · rfl
        · exact ih (attempts + 1) _ (by omega)
        · rfl
        · exact ih (attempts + 1) _ (by omega)

/-- C5 (amended): for every pool with at least 2 filtered candidates, every
draw sequence and every behaviour of the rank resolver, `loadNewPair`
terminates, performs at most 10 draw attempts (its outcome is insensitive to
the oracles beyond iteration index 10), never crashes, never reports the
"not enough commanders" state, and never commits a pair whose names are
equal or whose ranks did not resolve to numbers.  (Committed ranks are *not*
guaranteed positive: when the attempt cap is exhausted the final check only
requires the ranks to be numbers — see the counterexample.) -/
theorem loadNewPair_spec (pool : List Card) (cfg : FilterConfig) (now : ℤ)
    (draws : Nat → Nat × Nat) (rankOf : Nat → String → Option ℚ)
    (hpool : 2 ≤ (getFilteredCommanders pool cfg now).length)
    (hdraws : ∀ k, (draws k).1 < (getFilteredCommanders pool cfg now).length ∧
      (draws k).2 < (getFilteredCommanders pool cfg now).length - 1) :
    loadNewPair pool cfg now draws rankOf ≠ .crashed ∧
    loadNewPair pool cfg now draws rankOf ≠ .notEnough ∧
    (∀ l r lR rR, loadNewPair pool cfg now draws rankOf =
      .committed l r lR rR → l.name ≠ r.name) ∧
    (∀ draws' rankOf', (∀ k, k < 10 → draws k = draws' k) →
      (∀ k, k < 10 → rankOf k = rankOf' k) →
      loadNewPair pool cfg now draws rankOf =
        loadNewPair pool cfg now draws' rankOf') := by
  obtain ⟨st, hst⟩ := Option.ne_none_iff_exists'.mp
    (loadLoop_ne_none (getFilteredCommanders pool cfg now) draws rankOf hpool
      hdraws 10 0 ⟨default, default, none, none⟩)
  have hred : ∀ (d : Nat → Nat × Nat) (rk : Nat → String → Option ℚ),
      loadNewPair pool cfg now d rk =
        match loadLoop (getFilteredCommanders pool cfg now) d rk 10 0
            ⟨default, default, none, none⟩ with
        | none => .crashed
        | some st =>
          match st.lRank, st.rRank with
          | some lR, some rR =>
            if st.left.name = st.right.name then .errorPair
            else .committed st.left st.right lR rR
          | _, _ => .errorPair := by
    intro d rk
    unfold loadNewPair
    rw [if_neg (by omega)]
  refine ⟨?_, ?_, ?_, ?_⟩
  · rw [hred, hst]
    rcases st with ⟨l, r, lR, rR⟩
    cases lR <;> cases rR <;> simp only <;> try simp
    split <;> simp
  · rw [hred, hst]
    rcases st with ⟨l, r, lR, rR⟩
    cases lR <;> cases rR <;> simp only <;> try simp
    split <;> simp
  · intro l r lR rR hcom
    rw [hred, hst] at hcom
    rcases st with ⟨l', r', lR', rR'⟩
    cases lR' <;> cases rR' <;> simp only at hcom <;> try simp_all
    revert hcom
    split
    · intro hcom; simp at hcom
    · intro hcom
      rename_i hne
      cases hcom
      exact hne
  · intro draws' rankOf' hd hr
    rw [hred, hred,
      loadLoop_congr (getFilteredCommanders pool cfg now) draws draws' rankOf
        rankOf' hd hr 10 0 ⟨default, default, none, none⟩ (by omega)]

/-- Counterexample for C5 as stated: with two distinct-named candidates and
a resolver that always answers rank 0 (a number that is not positive), the
loop exhausts its 10 attempts and the final check — which only tests
`typeof === 'number'`, not positivity — commits the pair with rank 0. -/
theorem loadNewPair_commits_nonpositive_rank :
    loadNewPair [⟨"A", none, none, none⟩, ⟨"B", none, none, none⟩]
      ⟨true, true, true⟩ 0 (fun _ => (0, 0)) (fun _ _ => some 0) =
      .committed ⟨"A", none, none, none⟩ ⟨"B", none, none, none⟩ 0 0 ∧
    ¬ (0 : ℚ) > 0 := by
  constructor
  · decide
  · norm_num

/-- Witness for C5 (amended) at a concrete two-card pool. -/
theorem loadNewPair_spec_witness :
    loadNewPair [⟨"A", none, none, none⟩, ⟨"B", none, none, none⟩]
      ⟨true, true, true⟩ 0 (fun _ => (0, 0)) (fun _ _ => some 5) ≠
      .crashed := by
  have hlen : (getFilteredCommanders
      [⟨"A", none, none, none⟩, ⟨"B", none, none, none⟩]
      ⟨true, true, true⟩ 0).length = 2 := by decide
  have h := loadNewPair_spec [⟨"A", none, none, none⟩, ⟨"B", none, none, none⟩]
    ⟨true, true, true⟩ 0 (fun _ => (0, 0)) (fun _ _ => some 5)
    (by rw [hlen]) (fun k => by constructor <;> simp [hlen])
  exact h.1

/-- C7: for every name and every behaviour of the network — each of the two
candidate URLs failing (rejected fetch, non-OK status, malformed body) or
answering a body in which no known shape yields a rank —
`fetchEdhrecCommanderRank` returns `null` and never throws (the model is a
total function into `Option`); it consults exactly the two fixed URLs in
order: a hit on the first response determines the result whatever the second
response is, with no further retry. -/
theorem fetchEdhrecCommanderRank_spec (parseNum : String → Option ℚ)
    (r1 r2 : Resp) :
    ((∀ j, r1 = Resp.ok j → extractFromBody parseNum j = none) →
      (∀ j, r2 = Resp.ok j → extractFromBody parseNum j = none) →
      fetchEdhrecCommanderRank parseNum r1 r2 = none) ∧
    (∀ j v, r1 = Resp.ok j → extractFromBody parseNum j = some v →
      fetchEdhrecCommanderRank parseNum r1 r2 = some v) ∧
    tryResp parseNum Resp.netErr = none ∧
    tryResp parseNum Resp.notOk = none ∧
    tryResp parseNum Resp.badBody = none := by
  refine ⟨?_, ?_, rfl, rfl, rfl⟩
  · intro h1 h2
    have e1 : tryResp parseNum r1 = none := by
      cases r1 with
      | ok j => exact h1 j rfl
      | _ => rfl
    have e2 : tryResp parseNum r2 = none := by
      cases r2 with
      | ok j => exact h2 j rfl
      | _ => rfl
    unfold fetchEdhrecCommanderRank
    rw [e1, e2]
  · intro j v h1 hv
    subst h1
    have e1 : tryResp parseNum (Resp.ok j) = some v := hv
    unfold fetchEdhrecCommanderRank
    rw [e1]

/-- Witness for C7: a rejected first fetch and a malformed second body give
`null`. -/
theorem fetchEdhrecCommanderRank_spec_witness :
    fetchEdhrecCommanderRank (fun _ => none) Resp.netErr Resp.badBody =
      none :=
  (fetchEdhrecCommanderRank_spec (fun _ => none) Resp.netErr Resp.badBody).1
    (fun _ h => nomatch h) (fun _ h => nomatch h)

theorem isLowerAlnum_not_hy {c : Char} (h : isLowerAlnum c = true) :
    isHy c = false := by
  by_contra hne
  have hc : c = '-' := by
    have := eq_of_beq (by simpa [isHy] using Bool.not_eq_false _ ▸ hne)
    exact this
  subst hc
  simp [isLowerAlnum] at h

theorem isSlugChar_not_punct {c : Char} (h : isSlugChar c = true) :
    isPunct c = false := by
  rcases Bool.or_eq_true_iff.mp (by simpa [isSlugChar] using h) with ha | hh
  · simp only [isLowerAlnum, Bool.or_eq_true, Bool.and_eq_true,
      decide_eq_true_eq] at ha
    simp only [isPunct, Bool.or_eq_false_iff, beq_eq_false_iff_ne, ne_eq]
    omega
  · have hc : c = '-' := eq_of_beq hh
    subst hc
    decide

theorem isSlugChar_hy : isSlugChar '-' = true := by decide

theorem isSlugChar_of_alnum {c : Char} (h : isLowerAlnum c = true) :
    isSlugChar c = true := by
  simp [isSlugChar, h]

theorem alnum_of_slug_not_hy {c : Char} (h : isSlugChar c = true)
    (hh : isHy c = false) : isLowerAlnum c = true := by
  rcases Bool.or_eq_true_iff.mp (by simpa [isSlugChar] using h) with ha | hyc
  · exact ha
  · rw [hyc] at hh
    cases hh

theorem mem_of_mem_dropWhile {α : Type} (p : α → Bool) :
    ∀ (l : List α) (c : α), c ∈ l.dropWhile p → c ∈ l := by
  intro l
  induction l with
  | nil => intro c hc; simp [List.dropWhile] at hc
  | cons d rest ih =>
    intro c hc
    rw [List.dropWhile] at hc
    split at hc
    · exact List.mem_cons_of_mem d (ih c hc)
    · exact hc

theorem chain'_dropWhile {α : Type} (R : α → α → Prop) (p : α → Bool) :
    ∀ l : List α, List.Chain' R l → List.Chain' R (l.dropWhile p) := by
  intro l
  induction l with
  | nil => intro h; simp [List.dropWhile]
  | cons d rest ih =>
    intro h
    rw [List.dropWhile]
    split
    · exact ih h.tail
    · exact h

theorem head?_dropWhile_false {α : Type} (p : α → Bool) :
    ∀ (l : List α) (c : α), (l.dropWhile p).head? = some c → p c = false := by
  intro l
  induction l with
  | nil => intro c hc; simp [List.dropWhile] at hc
  | cons d rest ih =>
    intro c hc
    rw [List.dropWhile] at hc
    by_cases hd : p d = true
    · simp only [hd] at hc
      exact ih c hc
    · have hd' : p d = false := by simpa using hd
      simp only [hd', List.head?_cons, Option.some.injEq] at hc
      rw [← hc]
      exact hd'

theorem getLast?_cons_ne {α : Type} (c : α) (rest : List α) (h : rest ≠ []) :
    (c :: rest).getLast? = rest.getLast? := by
  cases rest with
  | nil => exact absurd rfl h
  | cons d r => rfl

theorem getLast?_dropWhile {α : Type} (p : α → Bool) :
    ∀ l : List α, l.dropWhile p = [] ∨
      (l.dropWhile p).getLast? = l.getLast? := by
  intro l
  induction l with
  | nil => left; rfl
  | cons d rest ih =>
    by_cases hd : p d = true
    · rw [List.dropWhile]
      simp only [hd]
      rcases eq_or_ne (rest.dropWhile p) [] with hnil | hnil
      · left; exact hnil
      · right
        have h : (rest.dropWhile p).getLast? = rest.getLast? := by
          rcases ih with h | h
          · exact absurd h hnil
          · exact h
        rw [h]
        have hr : rest ≠ [] := by
          intro hre
          subst hre
          simp [List.dropWhile] at hnil
        exact (getLast?_cons_ne d rest hr).symm
    · have hd' : p d = false := by simpa using hd
      rw [List.dropWhile]
      simp only [hd']
      right
      trivial

theorem dropWhile_eq_self_of_head {α : Type} (p : α → Bool) (l : List α)
    (h : ∀ c, l.head? = some c → p c = false) : l.dropWhile p = l := by
  cases l with
  | nil => rfl
  | cons d rest =>
    rw [List.dropWhile]
    rw [h d rfl]

theorem collapseAux_mem :
    ∀ (s : List Char) (flag : Bool) (c : Char),
      c ∈ collapseAux flag s → isSlugChar c = true := by
  intro s
  induction s with
  | nil => intro flag c hc; simp [collapseAux] at hc
  | cons d rest ih =>
    intro flag c hc
    rw [collapseAux] at hc
    split at hc
    · rcases List.mem_cons.mp hc with h | h
      · subst h
        exact isSlugChar_of_alnum (by assumption)
      · exact ih false c h
    · split at hc
      · exact ih true c hc
      · rcases List.mem_cons.mp hc with h | h
        · subst h
          exact isSlugChar_hy
        · exact ih true c h

theorem collapseAux_head_true :
    ∀ (s : List Char), HeadNotHy (collapseAux true s) := by
  intro s
  induction s with
  | nil => intro c hc; simp [collapseAux] at hc
  | cons d rest ih =>
    intro c hc
    rw [collapseAux] at hc
    revert hc
    split
    · intro hc
      simp only [List.head?_cons, Option.some.injEq] at hc
      subst hc
      exact isLowerAlnum_not_hy (by assumption)
    · split
      · exact ih c
      · intro hc
        exact absurd rfl (by assumption)

theorem collapseAux_chain :
    ∀ (s : List Char) (flag : Bool), List.Chain' NoHH (collapseAux flag s) := by
  intro s
  induction s with
  | nil => intro flag; simp [collapseAux]
  | cons d rest ih =>
    intro flag
    rw [collapseAux]
    split
    · rw [List.chain'_cons']
      refine ⟨?_, ih false⟩
      intro b _
      intro hb
      rw [isLowerAlnum_not_hy (by assumption)] at hb
      exact absurd hb.1 (by simp)
    · split
      · exact ih true
      · rw [List.chain'_cons']
        refine ⟨?_, ih true⟩
        intro b hb
        intro hcon
        have hbh : (collapseAux true rest).head? = some b :=
          Option.mem_def.mp hb
        rw [collapseAux_head_true rest b hbh] at hcon
        exact absurd hcon.2 (by simp)

theorem chain'_reverse_NoHH (l : List Char) (h : List.Chain' NoHH l) :
    List.Chain' NoHH l.reverse := by
  rw [List.chain'_reverse]
  exact h.imp fun a b hab hp => hab ⟨hp.2, hp.1⟩

theorem trimHyphens_mem (s : List Char) (c : Char)
    (hc : c ∈ trimHyphens s) : c ∈ s := by
  unfold trimHyphens at hc
  rw [List.mem_reverse] at hc
  have hc2 := mem_of_mem_dropWhile _ _ _ hc
  rw [List.mem_reverse] at hc2
  exact mem_of_mem_dropWhile _ _ _ hc2

theorem trimHyphens_chain (s : List Char) (h : List.Chain' NoHH s) :
    List.Chain' NoHH (trimHyphens s) := by
  unfold trimHyphens
  exact chain'_reverse_NoHH _ (chain'_dropWhile _ _ _
    (chain'_reverse_NoHH _ (chain'_dropWhile _ _ _ h)))

theorem trimHyphens_head (s : List Char) : HeadNotHy (trimHyphens s) := by
  intro c hc
  unfold trimHyphens at hc
  rw [List.head?_reverse] at hc
  rcases getLast?_dropWhile (fun c => isHy c)
      ((s.dropWhile fun c => isHy c).reverse) with hnil | hlast
  · rw [hnil] at hc
    cases hc
  · rw [hlast, List.getLast?_reverse] at hc
    exact head?_dropWhile_false _ _ c hc

theorem trimHyphens_last (s : List Char) : LastNotHy (trimHyphens s) := by
  intro c hc
  unfold trimHyphens at hc
  rw [List.getLast?_reverse] at hc
  exact head?_dropWhile_false _ _ c hc

theorem trimHyphens_eq_self (s : List Char) (hh : HeadNotHy s)
    (hl : LastNotHy s) : trimHyphens s = s := by
  unfold trimHyphens
  rw [dropWhile_eq_self_of_head _ s hh]
  rw [dropWhile_eq_self_of_head _ s.reverse ?_]
  · exact List.reverse_reverse s
  · intro c hc
    rw [List.head?_reverse] at hc
    exact hl c hc

theorem removePunct_eq_self (s : List Char)
    (h : ∀ c ∈ s, isSlugChar c = true) : removePunct s = s := by
  unfold removePunct
  rw [List.filter_eq_self]
  intro a ha
  simp [isSlugChar_not_punct (h a ha)]

theorem removeDiacritics_eq_self (isDia : Char → Bool) (s : List Char)
    (h : ∀ c ∈ s, isDia c = false) : removeDiacritics isDia s = s := by
  unfold removeDiacritics
  rw [List.filter_eq_self]
  intro a ha
  simp [h a ha]

theorem slug_regex_of_props :
    ∀ s : List Char, (∀ c ∈ s, isSlugChar c = true) → List.Chain' NoHH s →
      LastNotHy s →
      slugAfterRun s = true ∧
        (HeadNotHy s → s ≠ [] → slugNeedRun s = true) := by
  intro s
  induction s with
  | nil =>
    intro _ _ _
    exact ⟨rfl, fun _ h => absurd rfl h⟩
  | cons c rest ih =>
    intro hall hchain hlast
    have hallr : ∀ x ∈ rest, isSlugChar x = true :=
      fun x hx => hall x (List.mem_cons_of_mem c hx)
    have hchr : List.Chain' NoHH rest := hchain.tail
    by_cases hrest : rest = []
    · subst hrest
      have hc : isHy c = false := hlast c rfl
      have hca : isLowerAlnum c = true :=
        alnum_of_slug_not_hy (hall c (by simp)) hc
      refine ⟨?_, fun _ _ => ?_⟩
      · simp [slugAfterRun, slugNeedRun, hc, hca]
      · simp [slugNeedRun, slugAfterRun, hca]
    · have hlastr : LastNotHy rest := by
        intro b hb
        refine hlast b ?_
        rw [getLast?_cons_ne c rest hrest]
        exact hb
      have IH := ih hallr hchr hlastr
      constructor
      · rw [slugAfterRun]
        by_cases hc : isHy c = true
        · rw [if_pos hc]
          refine IH.2 ?_ hrest
          intro b hb
          have hrel := (List.chain'_cons'.mp hchain).1 b (Option.mem_def.mpr hb)
          by_contra hbt
          exact hrel ⟨hc, by simpa using hbt⟩
        · rw [if_neg hc]
          have hca : isLowerAlnum c = true :=
            alnum_of_slug_not_hy (hall c (by simp)) (by simpa using hc)
          simp [hca, IH.1]
      · intro hhead _
        rw [slugNeedRun]
        have hc : isHy c = false := hhead c rfl
        have hca : isLowerAlnum c = true :=
          alnum_of_slug_not_hy (hall c (by simp)) hc
        simp [hca, IH.1]

theorem collapseAux_eq_self :
    ∀ s : List Char, (∀ c ∈ s, isSlugChar c = true) → List.Chain' NoHH s →
      LastNotHy s →
      (HeadNotHy s → collapseAux true s = s) ∧ collapseAux false s = s := by
  intro s
  induction s with
  | nil => intro _ _ _; exact ⟨fun _ => rfl, rfl⟩
  | cons c rest ih =>
    intro hall hchain hlast
    have hallr : ∀ x ∈ rest, isSlugChar x = true :=
      fun x hx => hall x (List.mem_cons_of_mem c hx)
    have hchr : List.Chain' NoHH rest := hchain.tail
    by_cases hca : isLowerAlnum c = true
    · have hrfix : collapseAux false rest = rest := by
        by_cases hrest : rest = []
        · subst hrest; rfl
        · refine (ih hallr hchr ?_).2
          intro b hb
          refine hlast b ?_
          rw [getLast?_cons_ne c rest hrest]
          exact hb
      exact ⟨fun _ => by rw [collapseAux, if_pos hca, hrfix],
        by rw [collapseAux, if_pos hca, hrfix]⟩
    · have hc : isHy c = true := by
        rcases Bool.or_eq_true_iff.mp
          (by simpa [isSlugChar] using hall c (by simp)) with h | h
        · exact absurd h hca
        · exact h
      have hceq : c = '-' := eq_of_beq hc
      have hrest : rest ≠ [] := by
        intro hre
        subst hre
        rw [hlast c rfl] at hc
        cases hc
      have hlastr : LastNotHy rest := by
        intro b hb
        refine hlast b ?_
        rw [getLast?_cons_ne c rest hrest]
        exact hb
      have hheadr : HeadNotHy rest := by
        intro b hb
        have hrel := (List.chain'_cons'.mp hchain).1 b (Option.mem_def.mpr hb)
        by_contra hbt
        exact hrel ⟨hc, by simpa using hbt⟩
      have IH := ih hallr hchr hlastr
      constructor
      · intro hhead
        rw [hhead c rfl] at hc
        cases hc
      · rw [collapseAux, if_neg hca, if_neg (by simp)]
        rw [IH.1 hheadr, hceq]

/-- C6: `slugify` is idempotent — applying it to its own output is the
identity — and its output is always either empty or matches
`^[a-z0-9]+(-[a-z0-9]+)*$` (lowercase alphanumeric runs separated by single
hyphens, no leading or trailing hyphen).  The Unicode stages enter as
parameters constrained by the Unicode facts they satisfy: NFD normalization
fixes ASCII slug strings, no slug character is a diacritic mark, and
`toLowerCase` fixes lowercase slug strings. -/
theorem slugify_idempotent_and_shape (nfd : List Char → List Char)
    (isDia : Char → Bool) (lower : List Char → List Char)
    (hnfd : ∀ s, (∀ c ∈ s, isSlugChar c = true) → nfd s = s)
    (hdia : ∀ c, isSlugChar c = true → isDia c = false)
    (hlow : ∀ s, (∀ c ∈ s, isSlugChar c = true) → lower s = s)
    (x : List Char) :
    slugify nfd isDia lower (slugify nfd isDia lower x) =
      slugify nfd isDia lower x ∧
    matchesSlug (slugify nfd isDia lower x) = true := by
  have hout : slugify nfd isDia lower x =
      trimHyphens (collapseNonAlnum (removePunct (lower
        (removeDiacritics isDia (nfd x))))) := rfl
  have hchars : ∀ c ∈ slugify nfd isDia lower x, isSlugChar c = true := by
    rw [hout]
    intro c hc
    exact collapseAux_mem _ false c (trimHyphens_mem _ c hc)
  have hchain : List.Chain' NoHH (slugify nfd isDia lower x) := by
    rw [hout]
    exact trimHyphens_chain _ (collapseAux_chain _ false)
  have hhead : HeadNotHy (slugify nfd isDia lower x) := by
    rw [hout]
    exact trimHyphens_head _
  have hlast : LastNotHy (slugify nfd isDia lower x) := by
    rw [hout]
    exact trimHyphens_last _
  constructor
  · have h1 : nfd (slugify nfd isDia lower x) = slugify nfd isDia lower x :=
      hnfd _ hchars
    have h2 : removeDiacritics isDia (slugify nfd isDia lower x) =
        slugify nfd isDia lower x :=
      removeDiacritics_eq_self _ _ (fun c hc => hdia c (hchars c hc))
    have h3 : lower (slugify nfd isDia lower x) = slugify nfd isDia lower x :=
      hlow _ hchars
    have h4 : removePunct (slugify nfd isDia lower x) =
        slugify nfd isDia lower x :=
      removePunct_eq_self _ hchars
    have h5 : collapseNonAlnum (slugify nfd isDia lower x) =
        slugify nfd isDia lower x :=
      (collapseAux_eq_self _ hchars hchain hlast).2
    have h6 : trimHyphens (slugify nfd isDia lower x) =
        slugify nfd isDia lower x :=
      trimHyphens_eq_self _ hhead hlast
    calc slugify nfd isDia lower (slugify nfd isDia lower x)
        = trimHyphens (collapseNonAlnum (removePunct (lower
            (removeDiacritics isDia (nfd (slugify nfd isDia lower x)))))) :=
          rfl
      _ = slugify nfd isDia lower x := by rw [h1, h2, h3, h4, h5, h6]
  · rcases heq : slugify nfd isDia lower x with _ | ⟨c, rest⟩
    · rfl
    · rw [heq] at hchars hchain hhead hlast
      show slugNeedRun (c :: rest) = true
      exact (slug_regex_of_props (c :: rest) hchars hchain hlast).2 hhead
        (by simp)

/-- Witness for C6 with identity Unicode stages on the string
`"--ab) c--"`. -/
theorem slugify_idempotent_and_shape_witness :
    slugify (fun s => s) (fun _ => false) (fun s => s)
        (slugify (fun s => s) (fun _ => false) (fun s => s)
          ['-', '-', 'a', 'b', ')', ' ', 'c', '-', '-']) =
      slugify (fun s => s) (fun _ => false) (fun s => s)
        ['-', '-', 'a', 'b', ')', ' ', 'c', '-', '-'] ∧
    matchesSlug (slugify (fun s => s) (fun _ => false) (fun s => s)
      ['-', '-', 'a', 'b', ')', ' ', 'c', '-', '-']) = true :=
  slugify_idempotent_and_shape (fun s => s) (fun _ => false) (fun s => s)
    (fun _ _ => rfl) (fun _ _ => rfl) (fun _ _ => rfl)
    ['-', '-', 'a', 'b', ')', ' ', 'c', '-', '-']
